import Mathlib

/-!
Verification of the data-normalization core of `xget_actions_prices.py`:
a shallow embedding of `_series_to_df`, `_filter_date_range`,
`_standardize_price_columns`, the zero-value pruning, the preferred-schema
column reordering, and the per-symbol / per-kind orchestration of `main`.

Dates are modelled as integer day ordinals; a timestamp additionally carries
an optional timezone offset so that `tz_localize(None)` is observable.
Scalar values are modelled as rationals.
-/

namespace XGet

/-- Timestamp of a provider record: a calendar-day ordinal plus an optional
timezone offset; `none` models a timezone-naive timestamp. -/
structure DateTz where
  day : Int
  tz : Option Int
deriving DecidableEq

/-- Embedding of `pd.to_datetime(...).tz_localize(None)`: the timezone offset
is dropped, the calendar day is kept. -/
def tzLocalizeNone (d : DateTz) : DateTz := ⟨d.day, none⟩

/-- Date-indexed table with one named value column: the DataFrame shape
produced by `_series_to_df` and consumed by `_filter_date_range`. -/
structure EventTable where
  colname : String
  rows : List (DateTz × Rat)
deriving DecidableEq

/-- Row order used by `sort_index()`: comparison of the date index values. -/
def dayLE (a b : DateTz × Rat) : Prop := a.1.day ≤ b.1.day

instance : DecidableRel dayLE :=
  fun a b => inferInstanceAs (Decidable (a.1.day ≤ b.1.day))

instance : IsTotal (DateTz × Rat) dayLE := ⟨fun a b => Int.le_total a.1.day b.1.day⟩

instance : IsTrans (DateTz × Rat) dayLE := ⟨fun _ _ _ => Int.le_trans⟩

/-- Embedding of `_series_to_df(s, colname)`: an absent (`None`) or empty
series becomes a zero-row table with the given column name; otherwise the
series is renamed, its index is made timezone-naive, and it is sorted by
date (`sort_index()`, a stable sort). -/
def series_to_df (s : Option (List (DateTz × Rat))) (colname : String) : EventTable :=
  match s with
  | none => ⟨colname, []⟩
  | some l =>
    if l.length = 0 then ⟨colname, []⟩
    else ⟨colname, List.insertionSort dayLE (l.map fun p => (tzLocalizeNone p.1, p.2))⟩

/-- Embedding of `_filter_date_range(df, start, end)`: the rows are restricted
to `date >= start` when `start` is present, then to `date <= end` when `end`
is present; both bounds inclusive (`df.loc` slicing). -/
def filter_date_range (df : EventTable) (start stop : Option Int) : EventTable :=
  let df1 := match start with
    | none => df
    | some a => ⟨df.colname, df.rows.filter fun r => a ≤ r.1.day⟩
  match stop with
  | none => df1
  | some b => ⟨df1.colname, df1.rows.filter fun r => r.1.day ≤ b⟩

/-- Embedding of the pruning step in `main`:
`if len(df) > 0: df = df[df[col] != 0]`. -/
def prune_zero_rows (df : EventTable) : EventTable :=
  if 0 < df.rows.length then ⟨df.colname, df.rows.filter fun r => r.2 ≠ 0⟩ else df

/-- Column labels of a price table: either single-level (flat) labels or the
two-level `MultiIndex` labels yfinance produces for batch-shaped downloads. -/
inductive PriceCols where
  | flat : List String → PriceCols
  | multi : List (String × String) → PriceCols
deriving DecidableEq

/-- Price table: column labels plus date-indexed rows of values, each row
aligned positionally with the column list. -/
structure PriceDF where
  cols : PriceCols
  rows : List (DateTz × List Rat)
deriving DecidableEq

/-- Predicate: the column labels are single-level. -/
def PriceCols.isFlat : PriceCols → Bool
  | .flat _ => true
  | .multi _ => false

/-- Values of one row at the column positions whose label satisfies `p`,
in original column order (the row part of `df[symbol]` / `df.xs(...)`). -/
def selectPairVals (pairs : List (String × String)) (p : String × String → Bool)
    (vals : List Rat) : List Rat :=
  ((pairs.zip vals).filter fun pv => p pv.1).map (·.2)

/-- Number of distinct labels on one level: `len(pd.Index(lv).unique())`. -/
def distinctCount (l : List String) : Nat := l.dedup.length

/-- Embedding of `_standardize_price_columns(df_px, symbol)`: empty or
already-flat tables are returned unchanged; otherwise the two-level labels
are resolved by, in order: outer level contains the symbol (`df[symbol]`),
inner level contains the symbol (`df.xs(symbol, axis=1, level=1)`),
singleton outer level, singleton inner level, and finally joining each label
pair with the separator `"|"`. -/
def standardize_price_columns (df : PriceDF) (symbol : String) : PriceDF :=
  if df.rows.length = 0 then df
  else
    match df.cols with
    | .flat _ => df
    | .multi pairs =>
      let lv0 := pairs.map (·.1)
      let lv1 := pairs.map (·.2)
      if symbol ∈ lv0 then
        ⟨.flat ((pairs.filter fun c => c.1 = symbol).map (·.2)),
         df.rows.map fun r => (r.1, selectPairVals pairs (fun c => c.1 = symbol) r.2)⟩
      else if symbol ∈ lv1 then
        ⟨.flat ((pairs.filter fun c => c.2 = symbol).map (·.1)),
         df.rows.map fun r => (r.1, selectPairVals pairs (fun c => c.2 = symbol) r.2)⟩
      else if distinctCount lv0 = 1 ∧ 1 < distinctCount lv1 then
        ⟨.flat lv1, df.rows⟩
      else if distinctCount lv1 = 1 ∧ 1 < distinctCount lv0 then
        ⟨.flat lv0, df.rows⟩
      else
        ⟨.flat (pairs.map fun c => c.1 ++ "|" ++ c.2), df.rows⟩

/-- Preferred column schema of `main` (the `preferred` list). -/
def preferred : List String :=
  ["Open", "High", "Low", "Close", "Adj Close", "Volume",
   "Dividends", "Stock Splits", "Capital Gains"]

/-- Values of one row at every column position bearing the listed name, in
original column order: pandas selection by a label returns all matching
columns when column names are not unique. -/
def selectAllByName (names : List String) (vals : List Rat) (n : String) : List Rat :=
  ((names.zip vals).filter fun pv => pv.1 = n).map (·.2)

/-- Embedding of the reordering step in `main`:
`keep = [c for c in preferred if c in df.columns]`,
`other = [c for c in df.columns if c not in keep]`, `df = df[keep + other]`.
Selecting with a label list expands each listed label to all columns bearing
that name (pandas reindexing on a non-unique axis), so duplicate column
names are duplicated again per mention. In the pipeline this step is only
reached with single-level columns (standardization of a nonempty table
always yields flat labels); on two-level labels it is modelled as the
identity. -/
def reorder_preferred (df : PriceDF) : PriceDF :=
  match df.cols with
  | .multi _ => df
  | .flat names =>
    let keep := preferred.filter fun c => c ∈ names
    let other := names.filter fun c => c ∉ keep
    ⟨.flat ((keep ++ other).flatMap fun n => names.filter fun c => c = n),
     df.rows.map fun r => (r.1, (keep ++ other).flatMap (selectAllByName names r.2))⟩

/-- The four record kinds processed per symbol. -/
inductive Kind where
  | dividends | splits | capitalGains | prices
deriving DecidableEq

/-- Result table of one (symbol, kind) step. -/
inductive TableResult where
  | event : EventTable → TableResult
  | price : PriceDF → TableResult
deriving DecidableEq

/-- Per-kind outcome of one symbol iteration: the kind, the fetch error
message if the fetch failed, the final table, and the written file name if
one was written. -/
structure KindReport where
  kind : Kind
  fetchErr : Option String
  table : TableResult
  wrote : Option String
deriving DecidableEq

/-- Per-symbol outcome: the (normalized) symbol and the reports of its
enabled kinds, in source order. -/
structure SymbolReport where
  symbol : String
  kinds : List KindReport
deriving DecidableEq

/-- Run configuration of `main`: the user parameters block. -/
structure Config where
  symbols : List String
  start : Option Int
  stop : Option Int
  get_dividends : Bool
  get_splits : Bool
  get_capital_gains : Bool
  get_prices : Bool
  price_interval : String
  prices_actions : Bool
  write_csv : Bool
  out_dir : String

/-- External data provider: per symbol, the three sparse event series
(`Ticker.dividends` / `.splits` / `.capital_gains`, where `ok none` models an
absent series) and the price table (`yf.download`), each possibly failing
with an exception message. -/
structure Provider where
  dividends : String → Except String (Option (List (DateTz × Rat)))
  splits : String → Except String (Option (List (DateTz × Rat)))
  capital_gains : String → Except String (Option (List (DateTz × Rat)))
  download : String → Except String PriceDF

/-- Embedding of `_out_path(out_dir, filename)`. -/
def out_path (out_dir filename : String) : String :=
  if out_dir = "" then filename else out_dir ++ "/" ++ filename

/-- The normalize → filter → zero-prune pipeline applied to each fetched
event series in `main`. -/
def event_pipeline (ser : Option (List (DateTz × Rat))) (colname : String)
    (start stop : Option Int) : EventTable :=
  prune_zero_rows (filter_date_range (series_to_df ser colname) start stop)

/-- Zero-row event table with the given value column: the synthetic fallback
built in the `except` branches of `main`. -/
def emptyEvent (colname : String) : EventTable := ⟨colname, []⟩

/-- Fully empty price table: the `pd.DataFrame()` fallback of the prices
`except` branch in `main`. -/
def emptyPriceDF : PriceDF := ⟨.flat [], []⟩

/-- Dividends step of `main` for one symbol. -/
def process_dividends (prov : Provider) (cfg : Config) (s : String) : KindReport :=
  match prov.dividends s with
  | .error e =>
    { kind := .dividends,
      fetchErr := some ("error: failed to fetch dividends for " ++ s ++ ": " ++ e),
      table := .event (emptyEvent "dividend"), wrote := none }
  | .ok ser =>
    let df := event_pipeline ser "dividend" cfg.start cfg.stop
    { kind := .dividends, fetchErr := none, table := .event df,
      wrote := if 0 < df.rows.length ∧ cfg.write_csv then
          some (out_path cfg.out_dir (s ++ "_dividends.csv")) else none }

/-- Splits step of `main` for one symbol. -/
def process_splits (prov : Provider) (cfg : Config) (s : String) : KindReport :=
  match prov.splits s with
  | .error e =>
    { kind := .splits,
      fetchErr := some ("error: failed to fetch splits for " ++ s ++ ": " ++ e),
      table := .event (emptyEvent "split_ratio"), wrote := none }
  | .ok ser =>
    let df := event_pipeline ser "split_ratio" cfg.start cfg.stop
    { kind := .splits, fetchErr := none, table := .event df,
      wrote := if 0 < df.rows.length ∧ cfg.write_csv then
          some (out_path cfg.out_dir (s ++ "_splits.csv")) else none }

/-- Capital-gains step of `main` for one symbol. -/
def process_capital_gains (prov : Provider) (cfg : Config) (s : String) : KindReport :=
  match prov.capital_gains s with
  | .error e =>
    { kind := .capitalGains,
      fetchErr := some ("error: failed to fetch capital gains for " ++ s ++ ": " ++ e),
      table := .event (emptyEvent "capital_gains"), wrote := none }
  | .ok ser =>
    let df := event_pipeline ser "capital_gains" cfg.start cfg.stop
    { kind := .capitalGains, fetchErr := none, table := .event df,
      wrote := if 0 < df.rows.length ∧ cfg.write_csv then
          some (out_path cfg.out_dir (s ++ "_capital_gains.csv")) else none }

/-- Price normalization applied in the nonempty branch of the prices step:
make the index timezone-naive, standardize the columns, reorder into the
preferred schema. -/
def price_pipeline (df : PriceDF) (symbol : String) : PriceDF :=
  reorder_preferred
    (standardize_price_columns ⟨df.cols, df.rows.map fun r => (tzLocalizeNone r.1, r.2)⟩ symbol)

/-- Prices step of `main` for one symbol: a failed download degrades to the
empty table; an empty result is reported as "none" and not written; a
nonempty result is normalized and, when `write_csv` is set, written to a
file named from the symbol, the interval and the actions toggle. -/
def process_prices (prov : Provider) (cfg : Config) (s : String) : KindReport :=
  match prov.download s with
  | .error e =>
    { kind := .prices,
      fetchErr := some ("error: failed to fetch prices for " ++ s ++ ": " ++ e),
      table := .price emptyPriceDF, wrote := none }
  | .ok df =>
    if df.rows.length = 0 then
      { kind := .prices, fetchErr := none, table := .price df, wrote := none }
    else
      { kind := .prices, fetchErr := none, table := .price (price_pipeline df s),
        wrote := if cfg.write_csv then
            some (out_path cfg.out_dir
              (s ++ "_prices_" ++ cfg.price_interval ++
                (if cfg.prices_actions then "_actions" else "") ++ ".csv"))
          else none }

/-- Embedding of Python `str.upper()`: character-wise uppercasing. -/
def pyUpper (s : String) : String := ⟨s.data.map Char.toUpper⟩

/-- Whitespace removal at both ends of a character list. -/
def stripChars (l : List Char) : List Char :=
  ((l.dropWhile Char.isWhitespace).reverse.dropWhile Char.isWhitespace).reverse

/-- Embedding of Python `str.strip()`: surrounding whitespace removed. -/
def pyStrip (s : String) : String := ⟨stripChars s.data⟩

/-- Symbol normalization in `main`: `str(symbol).upper().strip()`. -/
def normalize_symbol (raw : String) : String := pyStrip (pyUpper raw)

/-- One symbol iteration of `main`: the enabled kinds in source order. -/
def process_symbol (prov : Provider) (cfg : Config) (s : String) : SymbolReport :=
  ⟨s, (if cfg.get_dividends then [process_dividends prov cfg s] else []) ++
      (if cfg.get_splits then [process_splits prov cfg s] else []) ++
      (if cfg.get_capital_gains then [process_capital_gains prov cfg s] else []) ++
      (if cfg.get_prices then [process_prices prov cfg s] else [])⟩

/-- The symbol loop of `main`: each entry is normalized; entries that
normalize to the empty string are skipped (`continue`); the rest are
processed in order. -/
def run_symbols (prov : Provider) (cfg : Config) : List String → List SymbolReport
  | [] => []
  | raw :: rest =>
    if normalize_symbol raw = "" then run_symbols prov cfg rest
    else process_symbol prov cfg (normalize_symbol raw) :: run_symbols prov cfg rest

/-- Embedding of `main`: nothing is done when all four toggles are off;
otherwise the configured symbol list is processed. -/
def run_main (prov : Provider) (cfg : Config) : List SymbolReport :=
  if cfg.get_dividends ∨ cfg.get_splits ∨ cfg.get_capital_gains ∨ cfg.get_prices then
    run_symbols prov cfg cfg.symbols
  else []

/-! Fixed inputs used by witnesses and counterexamples. -/

/-- Provider that always succeeds with absent series and an empty price
table. -/
def trivProvider : Provider :=
  ⟨fun _ => .ok none, fun _ => .ok none, fun _ => .ok none, fun _ => .ok emptyPriceDF⟩

/-- The literal run configuration of `main`. -/
def cfg0 : Config :=
  ⟨["SPY", "QQQ", "NVDA", "FTABX"], some 20100101, none,
   true, true, true, true, "1d", true, true, "."⟩

/-! Helper lemmas. -/

/-- Membership characterization of the date-range filter. -/
lemma mem_filter_date_range {df : EventTable} {a b : Option Int} {r : DateTz × Rat} :
    r ∈ (filter_date_range df a b).rows ↔
      r ∈ df.rows ∧ (∀ x, a = some x → x ≤ r.1.day) ∧ (∀ y, b = some y → r.1.day ≤ y) := by
  cases a <;> cases b <;>
    (simp [filter_date_range, List.mem_filter, and_assoc]; try tauto)

/-- The date-range filter never grows the table. -/
lemma length_filter_date_range (df : EventTable) (a b : Option Int) :
    (filter_date_range df a b).rows.length ≤ df.rows.length := by
  cases a <;> cases b <;>
    first
      | exact le_refl _
      | exact List.length_filter_le _ _
      | exact le_trans (List.length_filter_le _ _) (List.length_filter_le _ _)

/-- Membership characterization of the zero-value pruning step. -/
lemma mem_prune_zero_rows {t : EventTable} {r : DateTz × Rat} :
    r ∈ (prune_zero_rows t).rows ↔ r ∈ t.rows ∧ r.2 ≠ 0 := by
  unfold prune_zero_rows
  split
  · simp [List.mem_filter]
  · rename_i h
    have : t.rows = [] := List.length_eq_zero.mp (Nat.le_zero.mp (Nat.not_lt.mp h))
    simp [this]

/-- Standardization only relabels or selects columns: the date index is
unchanged. -/
lemma standardize_rows_fst (df : PriceDF) (s : String) :
    (standardize_price_columns df s).rows.map (fun r => r.1) = df.rows.map fun r => r.1 := by
  rcases df with ⟨cols, rows⟩
  unfold standardize_price_columns
  by_cases h : rows.length = 0
  · rw [if_pos h]
  · rw [if_neg h]
    cases cols with
    | flat ns => rfl
    | multi pairs =>
      dsimp only
      repeat' split
      all_goals simp [List.map_map]

/-- Reordering only permutes columns: the date index is unchanged. -/
lemma reorder_rows_fst (df : PriceDF) :
    (reorder_preferred df).rows.map (fun r => r.1) = df.rows.map fun r => r.1 := by
  rcases df with ⟨cols, rows⟩
  unfold reorder_preferred
  cases cols with
  | multi pairs => rfl
  | flat ns => simp [List.map_map]

/-- Mapping the same pointwise-equal function over a list flattens equally. -/
lemma flatMap_congr_of_mem {α β : Type} (l : List α) (f g : α → List β)
    (h : ∀ x ∈ l, f x = g x) : l.flatMap f = l.flatMap g := by
  induction l with
  | nil => rfl
  | cons a t ih =>
    rw [List.flatMap_cons, List.flatMap_cons, h a (List.mem_cons_self a t),
        ih fun x hx => h x (List.mem_cons_of_mem _ hx)]

/-- On a duplicate-free column list, the matches of a present name are just
that name. -/
lemma filter_eq_singleton_of_nodup {names : List String} {n : String}
    (hnd : names.Nodup) (hn : n ∈ names) : names.filter (fun c => c = n) = [n] := by
  rw [List.filter_eq, List.count_eq_one_of_mem hnd hn]
  rfl

/-- On a duplicate-free column list, label-list selection returns exactly the
listed labels. -/
lemma flatMap_matches_of_nodup {names sel : List String}
    (hnd : names.Nodup) (hsub : ∀ n ∈ sel, n ∈ names) :
    (sel.flatMap fun n => names.filter fun c => c = n) = sel := by
  rw [flatMap_congr_of_mem sel _ (fun n => [n])
    (fun n hn => filter_eq_singleton_of_nodup hnd (hsub n hn))]
  simp

/-- Reordering a flat-columned table: each recognized preferred name in
preferred order, then each unrecognized name in original order, each listed
name expanded to all columns bearing it. -/
lemma reorder_cols_of_flat (df : PriceDF) (names : List String) (h : df.cols = .flat names) :
    (reorder_preferred df).cols
      = .flat (((preferred.filter fun c => c ∈ names)
            ++ names.filter fun c => c ∉ preferred).flatMap
          fun n => names.filter fun c => c = n) := by
  rcases df with ⟨cols, rows⟩
  dsimp at h
  subst h
  unfold reorder_preferred
  dsimp only
  have h2 : (names.filter fun c => c ∉ preferred.filter fun c0 => c0 ∈ names)
      = names.filter fun c => c ∉ preferred := by
    apply List.filter_congr
    intro x hx
    simp [List.mem_filter, hx]
  rw [h2]

/-- When the standardized column names are duplicate-free, the reordered
columns collapse to the recognized preferred names followed by the
unrecognized names. -/
lemma reorder_cols_of_flat_nodup (df : PriceDF) (names : List String)
    (h : df.cols = .flat names) (hnd : names.Nodup) :
    (reorder_preferred df).cols
      = .flat ((preferred.filter fun c => c ∈ names)
          ++ names.filter fun c => c ∉ preferred) := by
  rw [reorder_cols_of_flat df names h]
  congr 1
  apply flatMap_matches_of_nodup hnd
  intro n hn
  rcases List.mem_append.mp hn with h1 | h1
  · have := List.mem_filter.mp h1
    simpa using this.2
  · exact (List.mem_filter.mp h1).1

/-- Standardizing a nonempty table always yields single-level columns. -/
lemma standardize_cols_flat (df : PriceDF) (s : String) (h : df.rows ≠ []) :
    ∃ names, (standardize_price_columns df s).cols = .flat names := by
  rcases df with ⟨cols, rows⟩
  have hlen : ¬ rows.length = 0 := by simpa [List.length_eq_zero] using h
  unfold standardize_price_columns
  rw [if_neg hlen]
  cases cols with
  | flat ns => exact ⟨ns, rfl⟩
  | multi pairs =>
    dsimp only
    repeat' split
    all_goals exact ⟨_, rfl⟩

/-- A label is separator-free when it does not contain the join separator
character. -/
def sepFree (s : String) : Prop := '|' ∉ s.data

instance : DecidablePred sepFree :=
  fun s => inferInstanceAs (Decidable ('|' ∉ s.data))

/-- Lists split uniquely at a separator absent from both left parts. -/
lemma append_sep_injective (a : List Char) : ∀ (c : List Char) {b d : List Char},
    '|' ∉ a → '|' ∉ c → a ++ '|' :: b = c ++ '|' :: d → a = c ∧ b = d := by
  induction a with
  | nil =>
    intro c b d _ hc h
    cases c with
    | nil => simpa using h
    | cons y c' =>
      rw [List.nil_append, List.cons_append] at h
      injection h with h1 _
      exact absurd (by rw [← h1]; exact List.mem_cons_self _ _) hc
  | cons x a' ih =>
    intro c b d ha hc h
    cases c with
    | nil =>
      rw [List.cons_append, List.nil_append] at h
      injection h with h1 _
      exact absurd (by rw [h1]; exact List.mem_cons_self _ _) ha
    | cons y c' =>
      rw [List.cons_append, List.cons_append] at h
      injection h with h1 h2
      have ha' : '|' ∉ a' := fun hm => ha (List.mem_cons_of_mem _ hm)
      have hc' : '|' ∉ c' := fun hm => hc (List.mem_cons_of_mem _ hm)
      obtain ⟨h3, h4⟩ := ih c' ha' hc' h2
      exact ⟨by rw [h1, h3], h4⟩

/-- Joining with the separator is injective when the left labels are
separator-free. -/
lemma join_sep_injective {s1 s2 t1 t2 : String} (h1 : sepFree s1) (h2 : sepFree t1)
    (h : s1 ++ "|" ++ s2 = t1 ++ "|" ++ t2) : s1 = t1 ∧ s2 = t2 := by
  have hd : s1.data ++ '|' :: s2.data = t1.data ++ '|' :: t2.data := by
    have hc := congrArg String.data h
    simpa [String.data_append, List.append_assoc] using hc
  obtain ⟨ha, hb⟩ := append_sep_injective s1.data t1.data h1 h2 hd
  exact ⟨congrArg String.mk ha, congrArg String.mk hb⟩

/-! Claim theorems. -/

/-- C9: filtering with both bounds absent is the identity on the table. -/
theorem c9_filter_absent_identity (df : EventTable) :
    filter_date_range df none none = df := rfl

/-- C8: a price table that is empty or already has single-level columns is
returned unchanged by the standardizer; in particular standardization is
idempotent on already-standardized tables. -/
theorem c8_identity_fast_path (df : PriceDF) (s : String)
    (h : df.rows = [] ∨ df.cols.isFlat = true) :
    standardize_price_columns df s = df := by
  rcases h with h | h
  · simp [standardize_price_columns, h]
  · cases hc : df.cols with
    | flat ns => simp [standardize_price_columns, hc]
    | multi pairs => simp [PriceCols.isFlat, hc] at h

/-- C8 witness: a concrete flat-columned table passes through unchanged. -/
theorem c8_witness :
    standardize_price_columns ⟨.flat ["Open", "Extra"], [(⟨1, none⟩, [2, 3])]⟩ "SPY"
      = ⟨.flat ["Open", "Extra"], [(⟨1, none⟩, [2, 3])]⟩ :=
  c8_identity_fast_path ⟨.flat ["Open", "Extra"], [(⟨1, none⟩, [2, 3])]⟩ "SPY" (Or.inr rfl)

/-- C7: with compatible bounds, every surviving row comes from the input and
satisfies each present bound inclusively, the row count never grows, and an
absent bound imposes no constraint: every input row meeting the present
bounds survives. -/
theorem c7_filter_range (df : EventTable) (a b : Option Int)
    (_hab : ∀ x y, a = some x → b = some y → x ≤ y) :
    (∀ r ∈ (filter_date_range df a b).rows,
        r ∈ df.rows ∧ (∀ x, a = some x → x ≤ r.1.day) ∧ (∀ y, b = some y → r.1.day ≤ y)) ∧
    (filter_date_range df a b).rows.length ≤ df.rows.length ∧
    (∀ r ∈ df.rows, (∀ x, a = some x → x ≤ r.1.day) → (∀ y, b = some y → r.1.day ≤ y) →
        r ∈ (filter_date_range df a b).rows) := by
  refine ⟨fun r hr => mem_filter_date_range.mp hr,
          length_filter_date_range df a b,
          fun r hr h1 h2 => mem_filter_date_range.mpr ⟨hr, h1, h2⟩⟩

/-- C7 witness: a concrete one-row table inside the window [1, 10]. -/
theorem c7_witness :
    (1 : Int) ≤ 10 ∧
    (filter_date_range ⟨"dividend", [(⟨5, none⟩, 1)]⟩ (some 1) (some 10)).rows.length ≤ 1 := by
  have h := c7_filter_range ⟨"dividend", [(⟨5, none⟩, 1)]⟩ (some 1) (some 10)
    (fun x y hx hy => by cases hx; cases hy; decide)
  exact ⟨by decide, h.2.1⟩

/-- C10: the symbol loop processes exactly the entries whose
uppercased-and-stripped form is nonempty, in order, and every produced
report carries such a normalized nonempty symbol (used for fetching,
reporting and file naming). -/
theorem c10_symbol_normalization (prov : Provider) (cfg : Config) (raws : List String) :
    run_symbols prov cfg raws = raws.filterMap (fun raw =>
        if normalize_symbol raw = "" then none
        else some (process_symbol prov cfg (normalize_symbol raw))) ∧
    ∀ rep ∈ run_symbols prov cfg raws,
      ∃ raw ∈ raws, rep.symbol = normalize_symbol raw ∧ rep.symbol ≠ "" := by
  induction raws with
  | nil => exact ⟨rfl, by simp [run_symbols]⟩
  | cons raw rest ih =>
    constructor
    · by_cases h : normalize_symbol raw = "" <;>
        simp [run_symbols, h, ih.1]
    · intro rep hrep
      by_cases h : normalize_symbol raw = ""
      · rw [run_symbols, if_pos h] at hrep
        obtain ⟨r0, hr0, hsym⟩ := ih.2 rep hrep
        exact ⟨r0, List.mem_cons_of_mem _ hr0, hsym⟩
      · rw [run_symbols, if_neg h] at hrep
        rcases List.mem_cons.mp hrep with heq | hmem
        · exact ⟨raw, List.mem_cons_self _ _, by rw [heq]; exact ⟨rfl, h⟩⟩
        · obtain ⟨r0, hr0, hsym⟩ := ih.2 rep hmem
          exact ⟨r0, List.mem_cons_of_mem _ hr0, hsym⟩

/-- C10 witness: a lowercase padded entry is processed as "SPY"; a
whitespace-only entry is skipped while the rest still run. -/
theorem c10_witness :
    run_symbols trivProvider cfg0 ["  spy ", "   "]
      = [process_symbol trivProvider cfg0 "SPY"] ∧
    ∃ raw ∈ ["  spy ", "   "],
      (process_symbol trivProvider cfg0 "SPY").symbol = normalize_symbol raw ∧
      (process_symbol trivProvider cfg0 "SPY").symbol ≠ "" := by
  have h := c10_symbol_normalization trivProvider cfg0 ["  spy ", "   "]
  have h1 : run_symbols trivProvider cfg0 ["  spy ", "   "]
      = [process_symbol trivProvider cfg0 "SPY"] := by
    rw [h.1]; rfl
  refine ⟨h1, h.2 (process_symbol trivProvider cfg0 "SPY") ?_⟩
  rw [h1]; exact List.mem_singleton_self _

/-- C3 counterexample: a series with two entries on the same date keeps both
rows, so the output date index is not strictly ascending and has a duplicate
date; `sort_index()` does not deduplicate. -/
theorem c3_counterexample :
    ((series_to_df (some [(⟨5, some 60⟩, 1), (⟨5, none⟩, 2)]) "dividend").rows.map
        fun r => r.1.day) = [5, 5] ∧
    ¬ List.Pairwise (fun x y : Int => x < y)
        ((series_to_df (some [(⟨5, some 60⟩, 1), (⟨5, none⟩, 2)]) "dividend").rows.map
          fun r => r.1.day) := by
  have he : ((series_to_df (some [(⟨5, some 60⟩, 1), (⟨5, none⟩, 2)]) "dividend").rows.map
      fun r => r.1.day) = [5, 5] := by decide
  refine ⟨he, fun hp => ?_⟩
  rw [he] at hp
  exact absurd (List.rel_of_pairwise_cons hp (List.mem_singleton_self _)) (by decide)

/-- C3 amended: for every series whose dates are pairwise distinct (as the
data model guarantees of the provider) and every column name, the normalized
table carries the given column name, its date index is strictly ascending
with no duplicates and free of timezone offsets, and an absent or empty
series yields zero rows. -/
theorem c3_series_normalizer (s : Option (List (DateTz × Rat))) (C : String)
    (hnd : ((s.getD []).map fun p => p.1.day).Nodup) :
    (series_to_df s C).colname = C ∧
    List.Pairwise (fun x y : Int => x < y)
      ((series_to_df s C).rows.map fun r => r.1.day) ∧
    (∀ r ∈ (series_to_df s C).rows, r.1.tz = none) ∧
    (s.getD [] = [] → (series_to_df s C).rows = []) := by
  cases s with
  | none => exact ⟨rfl, by simp [series_to_df], by simp [series_to_df], fun _ => rfl⟩
  | some l =>
    by_cases hl : l.length = 0
    · have hnil : l = [] := List.length_eq_zero.mp hl
      subst hnil
      exact ⟨rfl, by simp [series_to_df], by simp [series_to_df], fun _ => rfl⟩
    · have hrows : (series_to_df (some l) C).rows
          = List.insertionSort dayLE (l.map fun p => (tzLocalizeNone p.1, p.2)) := by
        simp [series_to_df, hl]
      have hcol : (series_to_df (some l) C).colname = C := by
        simp [series_to_df, hl]
      have hperm : (List.insertionSort dayLE (l.map fun p => (tzLocalizeNone p.1, p.2))).Perm
          (l.map fun p => (tzLocalizeNone p.1, p.2)) := List.perm_insertionSort _ _
      have hdays : ((l.map fun p => (tzLocalizeNone p.1, p.2)).map fun r => r.1.day)
          = l.map fun p => p.1.day := by
        simp [List.map_map, tzLocalizeNone]
      have hsorted : List.Pairwise dayLE
          (List.insertionSort dayLE (l.map fun p => (tzLocalizeNone p.1, p.2))) :=
        List.sorted_insertionSort dayLE _
      have hle : List.Pairwise (fun x y : Int => x ≤ y)
          ((series_to_df (some l) C).rows.map fun r => r.1.day) := by
        rw [hrows, List.pairwise_map]
        exact hsorted
      have hnodup : ((series_to_df (some l) C).rows.map fun r => r.1.day).Nodup := by
        rw [hrows]
        have hp2 := (hperm.map fun r : DateTz × Rat => r.1.day).symm
        rw [hdays] at hp2
        exact hp2.nodup (by simpa using hnd)
      refine ⟨hcol, ?_, ?_, ?_⟩
      · exact (hle.and hnodup).imp fun hab => lt_of_le_of_ne hab.1 hab.2
      · intro r hr
        rw [hrows] at hr
        have hm := hperm.mem_iff.mp hr
        obtain ⟨p, _, hpr⟩ := List.mem_map.mp hm
        rw [← hpr]
        rfl
      · intro he
        have hnil : l = [] := by simpa using he
        exact absurd (by rw [hnil]; rfl) hl

/-- C3 witness: a concrete two-entry series with distinct dates and
timezone-carrying timestamps is normalized to a strictly ascending,
timezone-naive, correctly named table. -/
theorem c3_witness :
    (series_to_df (some [(⟨7, some 120⟩, 3), (⟨5, some 0⟩, 1)]) "dividend").colname
      = "dividend" ∧
    List.Pairwise (fun x y : Int => x < y)
      ((series_to_df (some [(⟨7, some 120⟩, 3), (⟨5, some 0⟩, 1)]) "dividend").rows.map
        fun r => r.1.day) ∧
    (∀ r ∈ (series_to_df (some [(⟨7, some 120⟩, 3), (⟨5, some 0⟩, 1)]) "dividend").rows,
        r.1.tz = none) ∧
    ((some [((⟨7, some 120⟩ : DateTz), (3 : Rat)), (⟨5, some 0⟩, 1)]).getD [] = [] →
        (series_to_df (some [(⟨7, some 120⟩, 3), (⟨5, some 0⟩, 1)]) "dividend").rows = []) :=
  c3_series_normalizer (some [(⟨7, some 120⟩, 3), (⟨5, some 0⟩, 1)]) "dividend" (by decide)

/-- C4: after the date-range filter, exactly the zero-valued rows are removed
from event tables and only those; the price pipeline never drops a row (it
only relabels columns and strips timezones from the index); and the spec's
scenario (one zero and one nonzero entry inside the window, one entry
outside) yields exactly the one nonzero in-window row. -/
theorem c4_zero_pruning :
    (∀ (ser : Option (List (DateTz × Rat))) (colname : String) (a b : Option Int),
        ∀ r ∈ (event_pipeline ser colname a b).rows, r.2 ≠ 0) ∧
    (∀ (ser : Option (List (DateTz × Rat))) (colname : String) (a b : Option Int),
        ∀ r ∈ (filter_date_range (series_to_df ser colname) a b).rows,
          r.2 ≠ 0 → r ∈ (event_pipeline ser colname a b).rows) ∧
    (∀ (df : PriceDF) (s : String),
        (price_pipeline df s).rows.map (fun r => r.1)
          = df.rows.map fun r => tzLocalizeNone r.1) ∧
    (event_pipeline
        (some [(⟨20200105, none⟩, 0), (⟨20200107, none⟩, 3), (⟨20200201, none⟩, 2)])
        "dividend" (some 20200101) (some 20200110)).rows
      = [(⟨20200107, none⟩, 3)] := by
  refine ⟨?_, ?_, ?_, by decide⟩
  · intro ser colname a b r hr
    exact (mem_prune_zero_rows.mp hr).2
  · intro ser colname a b r hr hv
    exact mem_prune_zero_rows.mpr ⟨hr, hv⟩
  · intro df s
    unfold price_pipeline
    rw [reorder_rows_fst, standardize_rows_fst]
    simp [List.map_map]

/-- C4 witness: the scenario row survives with a nonzero value, and a
concrete one-row price table keeps its (timezone-stripped) row. -/
theorem c4_witness :
    ((⟨20200107, none⟩, (3 : Rat)) : DateTz × Rat).2 ≠ 0 ∧
    (price_pipeline ⟨.flat ["Open"], [(⟨1, some 60⟩, [0])]⟩ "SPY").rows.map (fun r => r.1)
      = [⟨1, none⟩] := by
  have h := c4_zero_pruning
  constructor
  · exact h.1 (some [(⟨20200105, none⟩, 0), (⟨20200107, none⟩, 3), (⟨20200201, none⟩, 2)])
      "dividend" (some 20200101) (some 20200110) (⟨20200107, none⟩, 3) (by decide)
  · have h3 := h.2.2.1 ⟨.flat ["Open"], [(⟨1, some 60⟩, [0])]⟩ "SPY"
    simpa [tzLocalizeNone] using h3

/-- C1 counterexample: with two-level columns ("SPY","Volume"), ("SPY","Open")
the standardizer selects the inner labels in original order Volume, Open —
all recognized by the preferred schema — yet after the orchestrator's
reordering the columns are Open, Volume (the preferred schema's order), not
the original relative order filtered through the preferred schema. -/
theorem c1_counterexample :
    (reorder_preferred (standardize_price_columns
        ⟨.multi [("SPY", "Volume"), ("SPY", "Open")], [(⟨0, none⟩, [10, 1])]⟩ "SPY")).cols
      = .flat ["Open", "Volume"] ∧
    (["Volume", "Open"].filter fun c => c ∈ preferred) = ["Volume", "Open"] ∧
    PriceCols.flat ["Open", "Volume"] ≠ .flat ["Volume", "Open"] :=
  ⟨by decide, by decide, by decide⟩

/-- C1 amended: when the outer label set contains the symbol, the
standardizer returns the sub-table columns, namely the inner labels of the
matching pairs in original relative order; after the orchestrator's
reordering the columns list, for each recognized preferred-schema name in
preferred order and then each unrecognized inner label in original relative
order, all columns bearing that name; when the inner labels are pairwise
distinct this is exactly the recognized preferred-schema columns in
preferred order followed by the unrecognized inner labels in original
relative order. -/
theorem c1_outer_symbol_selection (pairs : List (String × String))
    (rows : List (DateTz × List Rat)) (symbol : String)
    (hne : rows ≠ []) (hmem : symbol ∈ pairs.map (·.1)) :
    (standardize_price_columns ⟨.multi pairs, rows⟩ symbol).cols
      = .flat ((pairs.filter fun c => c.1 = symbol).map (·.2)) ∧
    (reorder_preferred (standardize_price_columns ⟨.multi pairs, rows⟩ symbol)).cols
      = .flat (((preferred.filter
            fun c => c ∈ (pairs.filter fun c0 => c0.1 = symbol).map (·.2))
          ++ ((pairs.filter fun c0 => c0.1 = symbol).map (·.2)).filter
            fun c => c ∉ preferred).flatMap
          fun n => ((pairs.filter fun c0 => c0.1 = symbol).map (·.2)).filter
            fun c => c = n) ∧
    (((pairs.filter fun c0 => c0.1 = symbol).map (·.2)).Nodup →
      (reorder_preferred (standardize_price_columns ⟨.multi pairs, rows⟩ symbol)).cols
        = .flat ((preferred.filter
              fun c => c ∈ (pairs.filter fun c0 => c0.1 = symbol).map (·.2))
            ++ ((pairs.filter fun c0 => c0.1 = symbol).map (·.2)).filter
              fun c => c ∉ preferred)) := by
  have h1 : (standardize_price_columns ⟨.multi pairs, rows⟩ symbol).cols
      = .flat ((pairs.filter fun c => c.1 = symbol).map (·.2)) := by
    unfold standardize_price_columns
    rw [if_neg (by simpa [List.length_eq_zero] using hne)]
    dsimp only
    rw [if_pos hmem]
  exact ⟨h1, reorder_cols_of_flat _ _ h1,
    fun hnd => reorder_cols_of_flat_nodup _ _ h1 hnd⟩

/-- C1 witness: a concrete table whose outer level contains the symbol and
whose inner labels are distinct. -/
theorem c1_witness :
    (standardize_price_columns
        ⟨.multi [("SPY", "Close"), ("SPY", "Zzz"), ("OTHER", "Open")],
         [(⟨0, none⟩, [1, 2, 3])]⟩ "SPY").cols
      = .flat (([(("SPY" : String), ("Close" : String)), ("SPY", "Zzz"), ("OTHER", "Open")].filter
          fun c => c.1 = "SPY").map (·.2)) ∧
    (([(("SPY" : String), ("Close" : String)), ("SPY", "Zzz"), ("OTHER", "Open")].filter
        fun c0 => c0.1 = "SPY").map (·.2)).Nodup ∧
    (reorder_preferred (standardize_price_columns
        ⟨.multi [("SPY", "Close"), ("SPY", "Zzz"), ("OTHER", "Open")],
         [(⟨0, none⟩, [1, 2, 3])]⟩ "SPY")).cols
      = .flat ((preferred.filter
            fun c => c ∈ ([(("SPY" : String), ("Close" : String)), ("SPY", "Zzz"), ("OTHER", "Open")].filter
              fun c0 => c0.1 = "SPY").map (·.2))
          ++ (([(("SPY" : String), ("Close" : String)), ("SPY", "Zzz"), ("OTHER", "Open")].filter
              fun c0 => c0.1 = "SPY").map (·.2)).filter fun c => c ∉ preferred) := by
  have h := c1_outer_symbol_selection
    [("SPY", "Close"), ("SPY", "Zzz"), ("OTHER", "Open")]
    [(⟨0, none⟩, [1, 2, 3])] "SPY" (by decide) (by decide)
  exact ⟨h.1, by decide, h.2.2 (by decide)⟩

/-- C6 counterexample: a table whose standardization produces duplicate
column names (the join fallback on a duplicated label pair). Label-list
selection expands every listed name to all matching columns, so the
reordered column list repeats the duplicated name four times — not the
recognized preferred columns followed by the unrecognized columns in their
original relative order (which would keep it twice). -/
theorem c6_counterexample :
    (standardize_price_columns
        ⟨.multi [("A", "X"), ("A", "X"), ("C", "Y")], [(⟨0, none⟩, [4, 5, 6])]⟩ "SPY").cols
      = .flat ["A|X", "A|X", "C|Y"] ∧
    (reorder_preferred (standardize_price_columns
        ⟨.multi [("A", "X"), ("A", "X"), ("C", "Y")], [(⟨0, none⟩, [4, 5, 6])]⟩ "SPY")).cols
      = .flat ["A|X", "A|X", "A|X", "A|X", "C|Y"] ∧
    ((preferred.filter fun c => c ∈ (["A|X", "A|X", "C|Y"] : List String))
        ++ (["A|X", "A|X", "C|Y"] : List String).filter fun c => c ∉ preferred)
      = ["A|X", "A|X", "C|Y"] ∧
    PriceCols.flat ["A|X", "A|X", "A|X", "A|X", "C|Y"] ≠ .flat ["A|X", "A|X", "C|Y"] :=
  ⟨by decide, by decide, by decide, by decide⟩

/-- C6 amended: the full price normalization (standardize, then reorder) of
any nonempty table yields single-level columns; the column order lists, for
each recognized preferred-schema name in schema order and then each
unrecognized name in original relative order, all columns bearing that name
(label selection expands duplicate names); when the standardized column
names are pairwise distinct this is exactly the recognized preferred-schema
columns in schema order followed by the unrecognized columns in original
relative order. -/
theorem c6_standardized_schema (df : PriceDF) (s : String) (h : df.rows ≠ []) :
    ∃ names,
      (standardize_price_columns df s).cols = .flat names ∧
      (reorder_preferred (standardize_price_columns df s)).cols
        = .flat (((preferred.filter fun c => c ∈ names)
            ++ names.filter fun c => c ∉ preferred).flatMap
          fun n => names.filter fun c => c = n) ∧
      (reorder_preferred (standardize_price_columns df s)).cols.isFlat = true ∧
      (names.Nodup →
        (reorder_preferred (standardize_price_columns df s)).cols
          = .flat ((preferred.filter fun c => c ∈ names)
              ++ names.filter fun c => c ∉ preferred)) := by
  obtain ⟨names, hn⟩ := standardize_cols_flat df s h
  refine ⟨names, hn, reorder_cols_of_flat _ _ hn, ?_,
    fun hnd => reorder_cols_of_flat_nodup _ _ hn hnd⟩
  rw [reorder_cols_of_flat _ _ hn]
  rfl

/-- C6 witness: a concrete two-level table with distinct standardized names
and an unrecognized column. -/
theorem c6_witness :
    ∃ names,
      (standardize_price_columns
          ⟨.multi [("QQQ", "Volume"), ("QQQ", "Zzz"), ("QQQ", "Open")],
           [(⟨3, none⟩, [7, 8, 9])]⟩ "QQQ").cols = .flat names ∧
      (reorder_preferred (standardize_price_columns
          ⟨.multi [("QQQ", "Volume"), ("QQQ", "Zzz"), ("QQQ", "Open")],
           [(⟨3, none⟩, [7, 8, 9])]⟩ "QQQ")).cols
        = .flat (((preferred.filter fun c => c ∈ names)
            ++ names.filter fun c => c ∉ preferred).flatMap
          fun n => names.filter fun c => c = n) ∧
      (reorder_preferred (standardize_price_columns
          ⟨.multi [("QQQ", "Volume"), ("QQQ", "Zzz"), ("QQQ", "Open")],
           [(⟨3, none⟩, [7, 8, 9])]⟩ "QQQ")).cols.isFlat = true ∧
      (names.Nodup →
        (reorder_preferred (standardize_price_columns
            ⟨.multi [("QQQ", "Volume"), ("QQQ", "Zzz"), ("QQQ", "Open")],
             [(⟨3, none⟩, [7, 8, 9])]⟩ "QQQ")).cols
          = .flat ((preferred.filter fun c => c ∈ names)
              ++ names.filter fun c => c ∉ preferred)) :=
  c6_standardized_schema
    ⟨.multi [("QQQ", "Volume"), ("QQQ", "Zzz"), ("QQQ", "Open")],
     [(⟨3, none⟩, [7, 8, 9])]⟩ "QQQ" (by decide)

/-- C5 counterexample: the synthesized joined names are not pairwise unique.
First table: a duplicated label pair yields the same joined name twice.
Second table: two distinct pairs whose labels contain the separator collide
on one joined name. Both tables have neither level containing the symbol and
more than one distinct label on each level. -/
theorem c5_counterexample :
    ((standardize_price_columns
        ⟨.multi [("A", "X"), ("A", "X"), ("B", "Y")], [(⟨0, none⟩, [1, 2, 3])]⟩ "SPY").cols
      = .flat ["A|X", "A|X", "B|Y"] ∧
    ¬ (["A|X", "A|X", "B|Y"] : List String).Nodup ∧
    ("SPY" : String) ∉ (["A", "A", "B"] : List String) ∧
    ("SPY" : String) ∉ (["X", "X", "Y"] : List String) ∧
    1 < distinctCount ["A", "A", "B"] ∧ 1 < distinctCount ["X", "X", "Y"]) ∧
    ((standardize_price_columns
        ⟨.multi [("A|X", "Y"), ("A", "X|Y")], [(⟨0, none⟩, [1, 2])]⟩ "SPY").cols
      = .flat ["A|X|Y", "A|X|Y"] ∧
    ¬ (["A|X|Y", "A|X|Y"] : List String).Nodup ∧
    ([(("A|X" : String), ("Y" : String)), ("A", "X|Y")] : List (String × String)).Nodup) :=
  ⟨⟨by decide, by decide, by decide, by decide, by decide, by decide⟩,
   ⟨by decide, by decide, by decide⟩⟩

/-- C5 amended: when neither level contains the symbol and both levels have
more than one distinct label, the standardizer totally computes the table
with each label pair joined by the separator; the joined names are pairwise
unique provided the label pairs are pairwise distinct and the outer labels
are separator-free. -/
theorem c5_join_fallback (pairs : List (String × String))
    (rows : List (DateTz × List Rat)) (symbol : String)
    (hne : rows ≠ [])
    (h0 : symbol ∉ pairs.map (·.1)) (h1 : symbol ∉ pairs.map (·.2))
    (hd0 : 1 < distinctCount (pairs.map (·.1)))
    (hd1 : 1 < distinctCount (pairs.map (·.2))) :
    standardize_price_columns ⟨.multi pairs, rows⟩ symbol
      = ⟨.flat (pairs.map fun c => c.1 ++ "|" ++ c.2), rows⟩ ∧
    (pairs.Nodup → (∀ p ∈ pairs, sepFree p.1) →
      (pairs.map fun c => c.1 ++ "|" ++ c.2).Nodup) := by
  constructor
  · unfold standardize_price_columns
    rw [if_neg (by simpa [List.length_eq_zero] using hne)]
    dsimp only
    rw [if_neg h0, if_neg h1,
        if_neg (fun hcond => absurd hcond.1 (by omega)),
        if_neg (fun hcond => absurd hcond.1 (by omega))]
  · intro hnd hsep
    refine List.Nodup.map_on ?_ hnd
    intro x hx y hy hxy
    obtain ⟨ha, hb⟩ := join_sep_injective (hsep x hx) (hsep y hy) hxy
    exact Prod.ext ha hb

/-- C5 witness: a concrete ambiguous table with distinct, separator-free
pairs gets unique joined column names. -/
theorem c5_witness :
    standardize_price_columns
        ⟨.multi [("A", "X"), ("B", "Y"), ("B", "Z")], [(⟨0, none⟩, [1, 2, 3])]⟩ "SPY"
      = ⟨.flat ([(("A" : String), ("X" : String)), ("B", "Y"), ("B", "Z")].map
          fun c => c.1 ++ "|" ++ c.2), [(⟨0, none⟩, [1, 2, 3])]⟩ ∧
    ([(("A" : String), ("X" : String)), ("B", "Y"), ("B", "Z")].map
        fun c => c.1 ++ "|" ++ c.2).Nodup := by
  have h := c5_join_fallback [("A", "X"), ("B", "Y"), ("B", "Z")]
    [(⟨0, none⟩, [1, 2, 3])] "SPY" (by decide) (by decide) (by decide)
    (by decide) (by decide)
  exact ⟨h.1, h.2 (by decide) (fun p hp => by fin_cases hp <;> decide)⟩

/-- Schema the spec's words assign to each kind ("a synthetic zero-row table
of the correct schema for that kind"): the kind's value column for the three
event kinds, and the preferred price schema for prices. Stated from the
spec's data model for comparison with the code's own fallback tables. -/
def specKindSchema : Kind → List String
  | .dividends => ["dividend"]
  | .splits => ["split_ratio"]
  | .capitalGains => ["capital_gains"]
  | .prices => preferred

/-- Number of record kinds enabled by the configuration toggles. -/
def enabled_kind_count (cfg : Config) : Nat :=
  (if cfg.get_dividends then 1 else 0) + (if cfg.get_splits then 1 else 0) +
  (if cfg.get_capital_gains then 1 else 0) + (if cfg.get_prices then 1 else 0)

/-- Every processed symbol reports on every enabled kind. -/
lemma process_symbol_kinds_length (prov : Provider) (cfg : Config) (s : String) :
    (process_symbol prov cfg s).kinds.length = enabled_kind_count cfg := by
  rcases cfg with ⟨sym, st, en, d, sp, cg, px, iv, ac, wc, od⟩
  cases d <;> cases sp <;> cases cg <;> cases px <;> rfl

/-- Provider whose price download always fails; the event series succeed. -/
def failPxProvider : Provider :=
  ⟨fun _ => .ok none, fun _ => .ok none, fun _ => .ok none,
   fun _ => .error "network down"⟩

/-- C2 counterexample: when the price fetch fails the synthetic fallback is
the completely empty table (no columns at all, the `pd.DataFrame()` of the
`except` branch), not a zero-row table of the price schema; the fallback's
column set differs from the correct price schema. -/
theorem c2_counterexample :
    (process_prices failPxProvider cfg0 "SPY").table = .price emptyPriceDF ∧
    emptyPriceDF.cols = .flat [] ∧
    PriceCols.flat [] ≠ .flat (specKindSchema .prices) :=
  ⟨rfl, rfl, by decide⟩

/-- C2 amended: a fetch failure for any kind is caught, reported as a
kind-scoped error message, and replaced by a synthetic zero-row table — the
kind's value column for the three event kinds, the fully empty table for
prices — with nothing written; and independently of any provider failures,
the run still produces one report per nonempty-normalized symbol and one
per enabled kind. -/
theorem c2_fetch_isolation (prov : Provider) (cfg : Config) (s e : String) :
    (prov.dividends s = .error e →
        process_dividends prov cfg s =
          ⟨.dividends, some ("error: failed to fetch dividends for " ++ s ++ ": " ++ e),
           .event (emptyEvent "dividend"), none⟩) ∧
    (prov.splits s = .error e →
        process_splits prov cfg s =
          ⟨.splits, some ("error: failed to fetch splits for " ++ s ++ ": " ++ e),
           .event (emptyEvent "split_ratio"), none⟩) ∧
    (prov.capital_gains s = .error e →
        process_capital_gains prov cfg s =
          ⟨.capitalGains, some ("error: failed to fetch capital gains for " ++ s ++ ": " ++ e),
           .event (emptyEvent "capital_gains"), none⟩) ∧
    (prov.download s = .error e →
        process_prices prov cfg s =
          ⟨.prices, some ("error: failed to fetch prices for " ++ s ++ ": " ++ e),
           .price emptyPriceDF, none⟩) ∧
    (∀ raws : List String,
        (run_symbols prov cfg raws).length
          = (raws.filter fun r => normalize_symbol r ≠ "").length ∧
        ∀ rep ∈ run_symbols prov cfg raws,
          rep.kinds.length = enabled_kind_count cfg) := by
  refine ⟨fun h => by simp [process_dividends, h],
          fun h => by simp [process_splits, h],
          fun h => by simp [process_capital_gains, h],
          fun h => by simp [process_prices, h],
          fun raws => ?_⟩
  induction raws with
  | nil => exact ⟨rfl, by simp [run_symbols]⟩
  | cons raw rest ih =>
    constructor
    · by_cases h : normalize_symbol raw = "" <;>
        simp [run_symbols, h, ih.1, List.filter_cons]
    · intro rep hrep
      by_cases h : normalize_symbol raw = ""
      · rw [run_symbols, if_pos h] at hrep
        exact ih.2 rep hrep
      · rw [run_symbols, if_neg h] at hrep
        rcases List.mem_cons.mp hrep with heq | hmem
        · rw [heq]
          exact process_symbol_kinds_length prov cfg _
        · exact ih.2 rep hmem

/-- C2 witness: a concrete failing price download for "SPY" degrades to the
empty table with a kind-scoped error while both configured symbols still get
their full set of kind reports. -/
theorem c2_witness :
    process_prices failPxProvider cfg0 "SPY" =
      ⟨.prices, some ("error: failed to fetch prices for " ++ "SPY" ++ ": " ++ "network down"),
       .price emptyPriceDF, none⟩ ∧
    (run_symbols failPxProvider cfg0 ["SPY", "QQQ"]).length = 2 ∧
    ∀ rep ∈ run_symbols failPxProvider cfg0 ["SPY", "QQQ"],
      rep.kinds.length = enabled_kind_count cfg0 := by
  have h := c2_fetch_isolation failPxProvider cfg0 "SPY" "network down"
  refine ⟨h.2.2.2.1 rfl, ?_, (h.2.2.2.2 ["SPY", "QQQ"]).2⟩
  exact ((h.2.2.2.2 ["SPY", "QQQ"]).1).trans (by rfl)

end XGet
